import Mathlib

/-
Verification of the staged-fitting controller, walker clustering and
confidence-interval extraction of the ImpedanceFitter repository
(impedancefitter/main.py), over a shallow embedding of the relevant
code paths.  Floats are modelled exactly as rationals.
-/

set_option maxHeartbeats 1000000

namespace ImpedanceFitter

/-- One lmfit parameter as used by main.py: its value and its vary flag
(bounds are never touched by the code under verification). -/
structure FitParam where
  value : ℚ
  vary : Bool
deriving DecidableEq

/-- An lmfit Parameters object: an ordered mapping from parameter names to
parameters, modelled as an association list whose keys are unique. -/
abbrev Params := List (String × FitParam)

/-- Dictionary lookup on an association list (first matching key wins),
modelling Python dict / lmfit Parameters subscript access; none models a
KeyError. -/
def alookup {α : Type} : List (String × α) → String → Option α
  | [], _ => none
  | (m, a) :: rest, n => if m = n then some a else alookup rest n

/-- The keys of an association list, in order. -/
def akeys {α : Type} (ps : List (String × α)) : List String := ps.map Prod.fst

/-- Embedding of params of name n .set with a value v (main.py line 450):
update the value of the first entry named n, keeping its vary flag; none
models the KeyError raised when n is not a key. -/
def setValue : Params → String → ℚ → Option Params
  | [], _, _ => none
  | (m, p) :: rest, n, v =>
    if m = n then some ((m, FitParam.mk v p.vary) :: rest)
    else (setValue rest n v).map (fun r => (m, p) :: r)

/-- Embedding of params of name n .set with vary false (main.py line 452):
set the vary flag of the first entry named n to false, keeping its value;
none models the KeyError raised when n is not a key. -/
def setVaryFalse : Params → String → Option Params
  | [], _ => none
  | (m, p) :: rest, n =>
    if m = n then some ((m, FitParam.mk p.value false) :: rest)
    else (setVaryFalse rest n).map (fun r => (m, p) :: r)

/-- The slice of an lmfit ModelResult that main.py reads in fix_parameters and
sequential_run: best_values, an ordered mapping from every parameter name of
the fitted model to its best-fit value.  The iteration over result.params in
fix_parameters visits exactly these keys, since lmfit's best_values is built
from result.params itself. -/
structure FitResult where
  best : List (String × ℚ)
deriving DecidableEq

/-- First loop of fix_parameters (main.py lines 449 and 450): for every
parameter name in the previous result, set the working set's value to the
previous best value.  Processes the result entries in order; none models a
KeyError on a name missing from the working set. -/
def carryForward : Params → List (String × ℚ) → Option Params
  | ps, [] => some ps
  | ps, (n, v) :: rest =>
    match setValue ps n v with
    | none => none
    | some ps1 => carryForward ps1 rest

/-- Second loop of fix_parameters (main.py lines 451 and 452): set vary to
false for every name of the stage's freeze list; none models a KeyError. -/
def freezeAll : Params → List String → Option Params
  | ps, [] => some ps
  | ps, n :: rest =>
    match setVaryFalse ps n with
    | none => none
    | some ps1 => freezeAll ps1 rest

/-- The iteration_dict literal of Fitter.model_iterations
(main.py lines 431 to 433). -/
def iteration_dict : List (String × ℕ) :=
  [("DoubleShell", 4), ("SingleShell", 2), ("ColeCole", 2)]

/-- Embedding of Fitter.model_iterations (main.py lines 431 to 438): the
stage count for a model class, together with the informational log message
emitted when the class has no entry in the table. -/
def model_iterations (model : String) : ℕ × Option String :=
  match alookup iteration_dict model with
  | none => (1, some ("There exists no iterative scheme for this model."))
  | some n => (n, none)

/-- The fix_dict literal of Fitter.fix_parameters (main.py lines 444 to 446). -/
def fix_dict : List (String × List (List String)) :=
  [("DoubleShell", [["kmed", "emed"], ["km", "em"], ["kcp"]]),
   ("SingleShell", [["kmed", "emed"]]),
   ("ColeCole", [["kdc", "eh"]])]

/-- The freeze list that fix_parameters applies at stage i of a model class:
the row of fix_dict at index i minus one (main.py lines 442 and 447). -/
def stageFreeze (mc : String) (i : ℕ) : Option (List String) :=
  (alookup fix_dict mc).bind (fun lists => lists.get? (i - 1))

/-- Embedding of Fitter.fix_parameters (main.py lines 440 to 453): carry every
best-fit value of the previous result forward into the working set, then set
vary to false for the names of the stage's freeze list.  none models a
KeyError (unknown model class, stage index out of range, or missing key). -/
def fix_parameters (i : ℕ) (modelname : String) (params : Params)
    (result : FitResult) : Option Params :=
  match stageFreeze modelname i with
  | none => none
  | some fix_list =>
    match carryForward params result.best with
    | none => none
    | some ps1 => freezeAll ps1 fix_list

/-- The stage loop of Fitter.fit_data (main.py lines 475 to 479), instrumented
with the number of fix_parameters calls made.  The first argument is the
number of remaining stages, the second the current stage index i; the working
parameter set is threaded through exactly as the params variable of fit_data,
and the previous stage's result as model_result (initially none).  Returns
the final result, the working parameter set of the last stage, and how many
times fix_parameters ran. -/
def fit_stages (mc : String) (opt : Params → FitResult) :
    ℕ → ℕ → Params → Option FitResult → Option (FitResult × Params × ℕ)
  | 0, _, params, prev =>
    match prev with
    | none => none
    | some r => some (r, params, 0)
  | n + 1, i, params, prev =>
    if i = 0 then
      fit_stages mc opt n (i + 1) params (some (opt params))
    else
      match prev with
      | none => none
      | some r =>
        match fix_parameters i mc params r with
        | none => none
        | some ps1 =>
          (fit_stages mc opt n (i + 1) ps1 (some (opt ps1))).map
            (fun t => (t.1, t.2.1, t.2.2 + 1))

/-- Embedding of Fitter.fit_data (main.py lines 455 to 493): a deep copy of
the caller's parameter set is threaded through the stage loop; the number of
stages is 1 unless the protocol is Iterative, in which case it comes from
model_iterations.  The optimizer invocation model.fit is abstracted as the
pure function opt of the working parameter set. -/
def fit_data (protocol : Option String) (modelclass : String)
    (opt : Params → FitResult) (parameters : Params) :
    Option (FitResult × Params × ℕ) :=
  let iters := if protocol = some ("Iterative") then (model_iterations modelclass).1 else 1
  fit_stages modelclass opt iters 0 parameters none

/-- Stated from the specification, for the refinement claim about single-stage
fits: one direct optimizer invocation on the unmodified initial parameter
set. -/
def spec_single_fit (opt : Params → FitResult) (parameters : Params) : FitResult :=
  opt parameters

/-- Ascending insertion of one element into a sorted list, the building block
of the embedding of np.sort. -/
def insertAsc (x : ℚ) : List ℚ → List ℚ
  | [] => [x]
  | y :: r => if x ≤ y then x :: y :: r else y :: insertAsc x r

/-- Embedding of np.sort on a one-dimensional array of walker scores
(main.py line 545): the ascending sort of the list. -/
def sortAsc (xs : List ℚ) : List ℚ := xs.foldr insertAsc []

/-- Embedding of np.diff on the sorted scores (main.py line 547): the list of
first differences. -/
def diffsQ : List ℚ → List ℚ
  | [] => []
  | [_] => []
  | x :: y :: rest => (y - x) :: diffsQ (y :: rest)

/-- Helper for the average differences: walks the tail of the sorted scores
with the running enumeration index j. -/
def avgsAux (l0 : ℚ) : ℕ → List ℚ → List ℚ
  | _, [] => []
  | j, x :: rest => ((x - l0) / ((j : ℚ) + 1)) :: avgsAux l0 (j + 1) rest

/-- Embedding of the average_differences comprehension of
Fitter.cluster_emcee_result (main.py line 554): for each position j of the
tail of the sorted scores, the gap to the smallest score divided by j + 1. -/
def avgsQ : List ℚ → List ℚ
  | [] => []
  | l0 :: rest => avgsAux l0 0 rest

/-- The paired difference and average-difference table scanned by the cutoff
loop of cluster_emcee_result; both lists have length one less than the walker
count, exactly as in main.py lines 565 and 566. -/
def walkerTable (walker_prob : List ℚ) : List (ℚ × ℚ) :=
  (diffsQ (sortAsc walker_prob)).zip (avgsQ (sortAsc walker_prob))

/-- The cutoff scan of cluster_emcee_result (main.py lines 565 to 569): the
first index whose difference exceeds c times its average difference, if any. -/
def firstJump (c : ℚ) : List (ℚ × ℚ) → Option ℕ
  | [] => none
  | (d, a) :: rest =>
    if c * a < d then some 0 else (firstJump c rest).map (fun k => k + 1)

/-- The cutoff computation of cluster_emcee_result with the threshold constant
that is actually in scope at the comparison (main.py lines 563 to 569): cut
defaults to the number of walkers and is replaced by the first jump index. -/
def cluster_cut (c : ℚ) (walker_prob : List ℚ) : ℕ :=
  match firstJump c (walkerTable walker_prob) with
  | none => walker_prob.length
  | some i => i

/-- Embedding of the cutoff computed by Fitter.cluster_emcee_result as a
function of its constant argument: main.py line 561 reassigns constant to 1e2
unconditionally before the scan, so the argument is ignored. -/
def cluster_emcee_cut (constant : ℚ) (walker_prob : List ℚ) : ℕ :=
  cluster_cut 100 walker_prob

/-- The percentiles literal of Fitter.emcee_conf_interval
(main.py lines 647 to 653), with the exact decimal constants of the source. -/
def percentile_levels : List ℚ :=
  [0.5 * (1 - 0.9973002039367398),
   0.5 * (1 - 0.9544997361036416),
   0.5 * (1 - 0.6826894921370859),
   0.0,
   0.5 * (1 + 0.6826894921370859),
   0.5 * (1 + 0.9544997361036416),
   0.5 * (1 + 0.9973002039367398)]

/-- Embedding of np.percentile with the default linear interpolation on a
one-dimensional sample list: sort ascending, take the fractional rank
q / 100 * (n - 1), and interpolate between the neighbouring order statistics.
none models the error on an empty sample. -/
def npPercentile (xs : List ℚ) (q : ℚ) : Option ℚ :=
  match sortAsc xs with
  | [] => none
  | s =>
    let rank : ℚ := q / 100 * ((s.length : ℚ) - 1)
    let i : ℕ := (Int.floor rank).toNat
    let lo := s.getD i 0
    let hi := s.getD (i + 1) lo
    some (lo + (rank - (i : ℚ)) * (hi - lo))

/-- Embedding of the per-parameter body of Fitter.emcee_conf_interval
(main.py lines 656 and 657): each percentile level is paired with the value
of the flattened chain at that level times 100. -/
def emcee_conf_interval_entries (chain : List ℚ) : List (ℚ × Option ℚ) :=
  percentile_levels.map (fun l => (l, npPercentile chain (l * 100)))

/-- The output-file events that Fitter.run can produce. -/
inductive OutEvent where
  | openedOutfile (mode : String)
  | dumpedData
  | loggedNothingToProcess
deriving DecidableEq

/-- The observable outcome of the output phase of Fitter.run: the events in
order, and the uncaught exception if one is raised. -/
structure Trace where
  events : List OutEvent
  error : Option String
deriving DecidableEq

/-- Model of CPython's validation of the mode argument of open, sufficient
for the modes occurring in main.py: every character must be one of the mode
letters r w x a b t + U and at least one of r w x a must occur; any other
mode raises ValueError.  In particular the uppercase mode W of main.py
lines 279 and 350 is rejected. -/
def pyOpenModeValid (mode : String) : Bool :=
  mode.toList.all (fun ch => ch ∈ ['r', 'w', 'x', 'a', 'b', 't', '+', 'U']) &&
  mode.toList.any (fun ch => ch ∈ ['r', 'w', 'x', 'a'])

/-- Opening the output file with a given mode: the event on success, the
ValueError on an invalid mode. -/
def openOutfile (mode : String) : Except String OutEvent :=
  if pyOpenModeValid mode then Except.ok (OutEvent.openedOutfile mode)
  else Except.error ("ValueError: invalid mode: " ++ mode)

/-- The end-of-loop output logic of Fitter.run (main.py lines 278 to 282):
when write_output is set and at least one record produced a result, reopen
the output file with mode W and dump the aggregated data; when no record
produced a result, log the informational message. -/
def run_tail (write_output hasData : Bool) : Trace :=
  if write_output && hasData then
    match openOutfile ("W") with
    | Except.ok e => Trace.mk [e, OutEvent.dumpedData] none
    | Except.error msg => Trace.mk [] (some msg)
  else if !hasData then Trace.mk [OutEvent.loggedNothingToProcess] none
  else Trace.mk [] none

/-- The whole output behaviour of Fitter.run as a function of write_output
and of whether any record produced a result (main.py lines 261, 262 and 278
to 282): the initial creation of the output file with mode w, then the record
loop (abstracted), then the end-of-loop logic. -/
def run_output (write_output hasData : Bool) : Trace :=
  if write_output then
    match openOutfile ("w") with
    | Except.error msg => Trace.mk [] (some msg)
    | Except.ok e =>
      let t := run_tail write_output hasData
      Trace.mk (e :: t.events) t.error
  else run_tail write_output hasData

/-- One step of the communicate loop of Fitter.sequential_run (main.py
lines 340 to 346): read the hand-off value from the first model's
best_values, write it into the second model's parameter set, and fix the
parameter.  none models the KeyError of either subscript. -/
def handoffStep (best1 : List (String × ℚ)) (ps : Params) (c : String) :
    Option Params :=
  match alookup best1 c with
  | none => none
  | some v =>
    match setValue ps c v with
    | none => none
    | some ps1 => setVaryFalse ps1 c

/-- The communicate loop of Fitter.sequential_run: the names are processed in
order, mutating the second model's parameter set in place; on the first
KeyError the loop stops, the state reached so far is kept, and the name that
raised is re-raised after being logged. -/
def handoff (best1 : List (String × ℚ)) :
    List String → Params → Params × Option String
  | [], ps => (ps, none)
  | c :: rest, ps =>
    match handoffStep best1 ps c with
    | none => (ps, some c)
    | some ps1 => handoff best1 rest ps1

/-- The persistent state that Fitter.sequential_run threads through its
record loop: the long-lived second-model parameter set self.model_parameters2
and the aggregated output dictionary self.data. -/
structure SeqState where
  params2 : Params
  data : List (String × List (String × ℚ) × List (String × ℚ))
deriving DecidableEq

/-- One record of the loop of Fitter.sequential_run (main.py lines 337 to
348): fit the first model, run the communicate hand-off into the persistent
second-model parameter set, and only if no KeyError was raised fit the second
model and append both best-value maps to the aggregated data.  The Bool
records whether the second fit was attempted; the final Option String the
uncaught KeyError. -/
def sequential_record (opt1 opt2 : Params → FitResult) (communicate : List String)
    (params1 : Params) (key : String) (st : SeqState) :
    SeqState × Bool × Option String :=
  let f1 := opt1 params1
  match handoff f1.best communicate st.params2 with
  | (ps2, some c) => (SeqState.mk ps2 st.data, false, some c)
  | (ps2, none) =>
    let f2 := opt2 ps2
    (SeqState.mk ps2 (st.data ++ [(key, f1.best, f2.best)]), true, none)

/-- The record loop of Fitter.sequential_run: records are processed in order;
an uncaught KeyError propagates immediately, aborting the loop and leaving
the persistent state as mutated so far. -/
def sequential_records (opt1 opt2 : Params → FitResult) (communicate : List String)
    (params1 : Params) : List String → SeqState → SeqState × Option String
  | [], st => (st, none)
  | k :: rest, st =>
    match sequential_record opt1 opt2 communicate params1 k st with
    | (st1, _, some c) => (st1, some c)
    | (st1, _, none) => sequential_records opt1 opt2 communicate params1 rest st1

/-- A concrete five-parameter set used by the witnesses to exercise the
staged controller. -/
def sampleParams : Params :=
  [("kmed", FitParam.mk 1 true), ("emed", FitParam.mk 2 true),
   ("km", FitParam.mk 3 true), ("em", FitParam.mk 4 true),
   ("kcp", FitParam.mk 5 true)]

/-- A concrete optimizer model used by the witnesses: returns every parameter
name with its value increased by one, a stand-in for an lmfit fit result. -/
def sampleOpt : Params → FitResult :=
  fun qs => FitResult.mk (qs.map (fun p => (p.1, p.2.value + 1)))

section Lemmas

theorem akeys_nil {α : Type} : akeys ([] : List (String × α)) = [] := rfl

theorem akeys_cons {α : Type} (m : String) (a : α) (tl : List (String × α)) :
    akeys ((m, a) :: tl) = m :: akeys tl := rfl

theorem alookup_isSome_iff {α : Type} {ps : List (String × α)} {n : String} :
    (alookup ps n).isSome ↔ n ∈ akeys ps := by
  induction ps with
  | nil => simp [akeys_nil, alookup]
  | cons hd tl ih =>
    obtain ⟨m, a⟩ := hd
    by_cases hm : m = n
    · subst hm; simp [akeys_cons, alookup]
    · have hnm : n ≠ m := fun h => hm h.symm
      simp [akeys_cons, alookup, hm, hnm, ih]

theorem setValue_some_of_mem {ps : Params} {n : String} (v : ℚ)
    (h : n ∈ akeys ps) : ∃ ps', setValue ps n v = some ps' := by
  induction ps with
  | nil => simp [akeys_nil] at h
  | cons hd tl ih =>
    obtain ⟨m, p⟩ := hd
    by_cases hm : m = n
    · subst hm
      exact ⟨(m, FitParam.mk v p.vary) :: tl, by simp [setValue]⟩
    · have hn : n ∈ akeys tl := by
        rw [akeys_cons] at h
        rcases List.mem_cons.mp h with h1 | h1
        · exact absurd h1.symm hm
        · exact h1
      obtain ⟨r, hr⟩ := ih hn
      exact ⟨(m, p) :: r, by simp [setValue, hm, hr]⟩

theorem setValue_none_of_not_mem {ps : Params} {n : String} (v : ℚ)
    (h : n ∉ akeys ps) : setValue ps n v = none := by
  induction ps with
  | nil => simp [setValue]
  | cons hd tl ih =>
    obtain ⟨m, p⟩ := hd
    rw [akeys_cons] at h
    have hm : m ≠ n := fun he => h (he ▸ List.mem_cons_self m (akeys tl))
    have htl : n ∉ akeys tl := fun he => h (List.mem_cons_of_mem m he)
    simp [setValue, hm, ih htl]

theorem setValue_keys {ps ps' : Params} {n : String} {v : ℚ}
    (h : setValue ps n v = some ps') : akeys ps' = akeys ps := by
  induction ps generalizing ps' with
  | nil => simp [setValue] at h
  | cons hd tl ih =>
    obtain ⟨m, p⟩ := hd
    by_cases hm : m = n
    · subst hm
      simp [setValue] at h
      subst h; simp [akeys_cons]
    · simp [setValue, hm, Option.map_eq_some'] at h
      obtain ⟨r, hr, hps⟩ := h
      subst hps; simp [akeys_cons, ih hr]

theorem alookup_setValue_self {ps ps' : Params} {n : String} {v : ℚ}
    (h : setValue ps n v = some ps') :
    alookup ps' n = (alookup ps n).map (fun p => FitParam.mk v p.vary) := by
  induction ps generalizing ps' with
  | nil => simp [setValue] at h
  | cons hd tl ih =>
    obtain ⟨m, p⟩ := hd
    by_cases hm : m = n
    · subst hm
      simp [setValue] at h
      subst h; simp [alookup]
    · simp [setValue, hm, Option.map_eq_some'] at h
      obtain ⟨r, hr, hps⟩ := h
      subst hps; simp [alookup, hm, ih hr]

theorem alookup_setValue_other {ps ps' : Params} {n m : String} {v : ℚ}
    (h : setValue ps n v = some ps') (hne : m ≠ n) :
    alookup ps' m = alookup ps m := by
  induction ps generalizing ps' with
  | nil => simp [setValue] at h
  | cons hd tl ih =>
    obtain ⟨k, p⟩ := hd
    by_cases hk : k = n
    · subst hk
      simp [setValue] at h
      subst h
      have hkm : k ≠ m := fun he => hne (he ▸ rfl)
      simp [alookup, hkm]
    · simp [setValue, hk, Option.map_eq_some'] at h
      obtain ⟨r, hr, hps⟩ := h
      subst hps
      by_cases hkm : k = m
      · simp [alookup, hkm]
      · simp [alookup, hkm, ih hr]

theorem setVaryFalse_some_of_mem {ps : Params} {n : String}
    (h : n ∈ akeys ps) : ∃ ps', setVaryFalse ps n = some ps' := by
  induction ps with
  | nil => simp [akeys_nil] at h
  | cons hd tl ih =>
    obtain ⟨m, p⟩ := hd
    by_cases hm : m = n
    · subst hm
      exact ⟨(m, FitParam.mk p.value false) :: tl, by simp [setVaryFalse]⟩
    · have hn : n ∈ akeys tl := by
        rw [akeys_cons] at h
        rcases List.mem_cons.mp h with h1 | h1
        · exact absurd h1.symm hm
        · exact h1
      obtain ⟨r, hr⟩ := ih hn
      exact ⟨(m, p) :: r, by simp [setVaryFalse, hm, hr]⟩

theorem setVaryFalse_keys {ps ps' : Params} {n : String}
    (h : setVaryFalse ps n = some ps') : akeys ps' = akeys ps := by
  induction ps generalizing ps' with
  | nil => simp [setVaryFalse] at h
  | cons hd tl ih =>
    obtain ⟨m, p⟩ := hd
    by_cases hm : m = n
    · subst hm
      simp [setVaryFalse] at h
      subst h; simp [akeys_cons]
    · simp [setVaryFalse, hm, Option.map_eq_some'] at h
      obtain ⟨r, hr, hps⟩ := h
      subst hps; simp [akeys_cons, ih hr]

theorem alookup_setVaryFalse_self {ps ps' : Params} {n : String}
    (h : setVaryFalse ps n = some ps') :
    alookup ps' n = (alookup ps n).map (fun p => FitParam.mk p.value false) := by
  induction ps generalizing ps' with
  | nil => simp [setVaryFalse] at h
  | cons hd tl ih =>
    obtain ⟨m, p⟩ := hd
    by_cases hm : m = n
    · subst hm
      simp [setVaryFalse] at h
      subst h; simp [alookup]
    · simp [setVaryFalse, hm, Option.map_eq_some'] at h
      obtain ⟨r, hr, hps⟩ := h
      subst hps; simp [alookup, hm, ih hr]

theorem alookup_setVaryFalse_other {ps ps' : Params} {n m : String}
    (h : setVaryFalse ps n = some ps') (hne : m ≠ n) :
    alookup ps' m = alookup ps m := by
  induction ps generalizing ps' with
  | nil => simp [setVaryFalse] at h
  | cons hd tl ih =>
    obtain ⟨k, p⟩ := hd
    by_cases hk : k = n
    · subst hk
      simp [setVaryFalse] at h
      subst h
      have hkm : k ≠ m := fun he => hne (he ▸ rfl)
      simp [alookup, hkm]
    · simp [setVaryFalse, hk, Option.map_eq_some'] at h
      obtain ⟨r, hr, hps⟩ := h
      subst hps
      by_cases hkm : k = m
      · simp [alookup, hkm]
      · simp [alookup, hkm, ih hr]

theorem carryForward_some_of_subset {ps : Params} {l : List (String × ℚ)}
    (h : ∀ x ∈ akeys l, x ∈ akeys ps) : ∃ ps', carryForward ps l = some ps' := by
  induction l generalizing ps with
  | nil => exact ⟨ps, rfl⟩
  | cons hd tl ih =>
    obtain ⟨n, v⟩ := hd
    have hn : n ∈ akeys ps := h n (by rw [akeys_cons]; exact List.mem_cons_self n (akeys tl))
    obtain ⟨ps1, h1⟩ := setValue_some_of_mem v hn
    have hsub : ∀ x ∈ akeys tl, x ∈ akeys ps1 := by
      intro x hx
      rw [setValue_keys h1]
      exact h x (by rw [akeys_cons]; exact List.mem_cons_of_mem n hx)
    obtain ⟨ps', h2⟩ := ih hsub
    exact ⟨ps', by simp [carryForward, h1, h2]⟩

theorem carryForward_keys {ps ps' : Params} {l : List (String × ℚ)}
    (h : carryForward ps l = some ps') : akeys ps' = akeys ps := by
  induction l generalizing ps with
  | nil =>
    simp [carryForward] at h
    subst h; rfl
  | cons hd tl ih =>
    obtain ⟨n, v⟩ := hd
    cases hsv : setValue ps n v with
    | none => simp [carryForward, hsv] at h
    | some ps1 =>
      simp [carryForward, hsv] at h
      rw [ih h, setValue_keys hsv]

theorem carryForward_vary {ps ps' : Params} {l : List (String × ℚ)}
    (h : carryForward ps l = some ps') (m : String) :
    (alookup ps' m).map FitParam.vary = (alookup ps m).map FitParam.vary := by
  induction l generalizing ps with
  | nil =>
    simp [carryForward] at h
    subst h; rfl
  | cons hd tl ih =>
    obtain ⟨n, v⟩ := hd
    cases hsv : setValue ps n v with
    | none => simp [carryForward, hsv] at h
    | some ps1 =>
      simp [carryForward, hsv] at h
      rw [ih h]
      by_cases hm : m = n
      · subst hm
        rw [alookup_setValue_self hsv]
        cases alookup ps m <;> simp
      · rw [alookup_setValue_other hsv hm]

theorem carryForward_lookup_notmem {ps ps' : Params} {l : List (String × ℚ)}
    {m : String} (h : carryForward ps l = some ps') (hm : m ∉ akeys l) :
    alookup ps' m = alookup ps m := by
  induction l generalizing ps with
  | nil =>
    simp [carryForward] at h
    subst h; rfl
  | cons hd tl ih =>
    obtain ⟨n, v⟩ := hd
    rw [akeys_cons] at hm
    have hmn : m ≠ n := fun he => hm (he ▸ List.mem_cons_self n (akeys tl))
    have hmtl : m ∉ akeys tl := fun he => hm (List.mem_cons_of_mem n he)
    cases hsv : setValue ps n v with
    | none => simp [carryForward, hsv] at h
    | some ps1 =>
      simp [carryForward, hsv] at h
      rw [ih h hmtl, alookup_setValue_other hsv hmn]

theorem carryForward_lookup_mem {ps ps' : Params} {l : List (String × ℚ)}
    (hnd : (akeys l).Nodup) (h : carryForward ps l = some ps')
    {n : String} {v : ℚ} (hmem : (n, v) ∈ l) :
    alookup ps' n = (alookup ps n).map (fun p => FitParam.mk v p.vary) := by
  induction l generalizing ps with
  | nil => cases hmem
  | cons hd tl ih =>
    obtain ⟨n0, v0⟩ := hd
    rw [akeys_cons] at hnd
    have hnd0 : n0 ∉ akeys tl := (List.nodup_cons.mp hnd).1
    have hndtl : (akeys tl).Nodup := (List.nodup_cons.mp hnd).2
    cases hsv : setValue ps n0 v0 with
    | none => simp [carryForward, hsv] at h
    | some ps1 =>
      simp [carryForward, hsv] at h
      rcases List.mem_cons.mp hmem with heq | hmem'
      · have hn : n = n0 := congrArg Prod.fst heq
        have hv : v = v0 := congrArg Prod.snd heq
        subst hn; subst hv
        have hnot : n ∉ akeys tl := hnd0
        rw [carryForward_lookup_notmem h hnot, alookup_setValue_self hsv]
      · have hntl : n ∈ akeys tl := by
          have : n = (n, v).1 := rfl
          rw [this]
          exact List.mem_map_of_mem Prod.fst hmem'
        have hne : n ≠ n0 := fun he => hnd0 (he ▸ hntl)
        rw [ih hndtl h hmem', alookup_setValue_other hsv hne]

theorem freezeAll_some_of_subset {ps : Params} {fl : List String}
    (h : ∀ x ∈ fl, x ∈ akeys ps) : ∃ ps', freezeAll ps fl = some ps' := by
  induction fl generalizing ps with
  | nil => exact ⟨ps, rfl⟩
  | cons n tl ih =>
    have hn : n ∈ akeys ps := h n (List.mem_cons_self n tl)
    obtain ⟨ps1, h1⟩ := setVaryFalse_some_of_mem hn
    have hsub : ∀ x ∈ tl, x ∈ akeys ps1 := by
      intro x hx
      rw [setVaryFalse_keys h1]
      exact h x (List.mem_cons_of_mem n hx)
    obtain ⟨ps', h2⟩ := ih hsub
    exact ⟨ps', by simp [freezeAll, h1, h2]⟩

theorem freezeAll_keys {ps ps' : Params} {fl : List String}
    (h : freezeAll ps fl = some ps') : akeys ps' = akeys ps := by
  induction fl generalizing ps with
  | nil =>
    simp [freezeAll] at h
    subst h; rfl
  | cons n tl ih =>
    cases hsv : setVaryFalse ps n with
    | none => simp [freezeAll, hsv] at h
    | some ps1 =>
      simp [freezeAll, hsv] at h
      rw [ih h, setVaryFalse_keys hsv]

theorem freezeAll_value {ps ps' : Params} {fl : List String}
    (h : freezeAll ps fl = some ps') (m : String) :
    (alookup ps' m).map FitParam.value = (alookup ps m).map FitParam.value := by
  induction fl generalizing ps with
  | nil =>
    simp [freezeAll] at h
    subst h; rfl
  | cons n tl ih =>
    cases hsv : setVaryFalse ps n with
    | none => simp [freezeAll, hsv] at h
    | some ps1 =>
      simp [freezeAll, hsv] at h
      rw [ih h]
      by_cases hm : m = n
      · subst hm
        rw [alookup_setVaryFalse_self hsv]
        cases alookup ps m <;> simp
      · rw [alookup_setVaryFalse_other hsv hm]

theorem freezeAll_lookup_notmem {ps ps' : Params} {fl : List String} {m : String}
    (h : freezeAll ps fl = some ps') (hm : m ∉ fl) :
    alookup ps' m = alookup ps m := by
  induction fl generalizing ps with
  | nil =>
    simp [freezeAll] at h
    subst h; rfl
  | cons n tl ih =>
    have hmn : m ≠ n := fun he => hm (he ▸ List.mem_cons_self n tl)
    have hmtl : m ∉ tl := fun he => hm (List.mem_cons_of_mem n he)
    cases hsv : setVaryFalse ps n with
    | none => simp [freezeAll, hsv] at h
    | some ps1 =>
      simp [freezeAll, hsv] at h
      rw [ih h hmtl, alookup_setVaryFalse_other hsv hmn]

theorem freezeAll_vary_mem {ps ps' : Params} {fl : List String} {m : String}
    (h : freezeAll ps fl = some ps') (hm : m ∈ fl) :
    alookup ps' m = (alookup ps m).map (fun p => FitParam.mk p.value false) := by
  induction fl generalizing ps with
  | nil => cases hm
  | cons n tl ih =>
    cases hsv : setVaryFalse ps n with
    | none => simp [freezeAll, hsv] at h
    | some ps1 =>
      simp [freezeAll, hsv] at h
      by_cases hmtl : m ∈ tl
      · rw [ih h hmtl]
        by_cases hmn : m = n
        · subst hmn
          rw [alookup_setVaryFalse_self hsv]
          cases alookup ps m <;> simp
        · rw [alookup_setVaryFalse_other hsv hmn]
      · have hmn : m = n := by
          rcases List.mem_cons.mp hm with h1 | h1
          · exact h1
          · exact absurd h1 hmtl
        subst hmn
        rw [freezeAll_lookup_notmem h hmtl, alookup_setVaryFalse_self hsv]

theorem fix_parameters_spec {i : ℕ} {mc : String} {ps : Params} {r : FitResult}
    {fl : List String}
    (hfl : stageFreeze mc i = some fl)
    (hbk : akeys r.best = akeys ps)
    (hnd : (akeys ps).Nodup)
    (hfk : ∀ x ∈ fl, x ∈ akeys ps) :
    ∃ ps', fix_parameters i mc ps r = some ps' ∧
      akeys ps' = akeys ps ∧
      (∀ n v, (n, v) ∈ r.best → (alookup ps' n).map FitParam.value = some v) ∧
      (∀ n, n ∈ fl → (alookup ps' n).map FitParam.vary = some false) ∧
      (∀ n, n ∉ fl →
        (alookup ps' n).map FitParam.vary = (alookup ps n).map FitParam.vary) := by
  have hsub : ∀ x ∈ akeys r.best, x ∈ akeys ps := by
    rw [hbk]; exact fun x hx => hx
  obtain ⟨ps1, h1⟩ := carryForward_some_of_subset hsub
  have hk1 : akeys ps1 = akeys ps := carryForward_keys h1
  have hfk1 : ∀ x ∈ fl, x ∈ akeys ps1 := by
    rw [hk1]; exact hfk
  obtain ⟨ps2, h2⟩ := freezeAll_some_of_subset hfk1
  refine ⟨ps2, ?_, ?_, ?_, ?_, ?_⟩
  · simp [fix_parameters, hfl, h1, h2]
  · rw [freezeAll_keys h2, hk1]
  · intro n v hmem
    have hndb : (akeys r.best).Nodup := by rw [hbk]; exact hnd
    have hv1 : alookup ps1 n = (alookup ps n).map (fun p => FitParam.mk v p.vary) :=
      carryForward_lookup_mem hndb h1 hmem
    have hn_mem : n ∈ akeys ps := by
      rw [← hbk]
      have : n = (n, v).1 := rfl
      rw [this]
      exact List.mem_map_of_mem Prod.fst hmem
    obtain ⟨p0, hp0⟩ := Option.isSome_iff_exists.mp (alookup_isSome_iff.mpr hn_mem)
    rw [freezeAll_value h2 n, hv1, hp0]
    simp
  · intro n hn
    rw [freezeAll_vary_mem h2 hn]
    have hn1 : n ∈ akeys ps1 := hfk1 n hn
    obtain ⟨p1, hp1⟩ := Option.isSome_iff_exists.mp (alookup_isSome_iff.mpr hn1)
    rw [hp1]
    simp
  · intro n hn
    rw [freezeAll_lookup_notmem h2 hn]
    exact carryForward_vary h1 n

end Lemmas

/-- C3: for every model class in the freeze table, the stage count returned by
model_iterations matches the table (DoubleShell 4, SingleShell 2, ColeCole 2),
and for every stage i bigger than 0 the freeze list that fix_parameters
applies equals the table row as an exact set: SingleShell freezes kmed and
emed; DoubleShell freezes kmed and emed, then km and em, then kcp; ColeCole
freezes kdc and eh. -/
theorem freeze_table_exact :
    (model_iterations ("DoubleShell")).1 = 4 ∧
    (model_iterations ("SingleShell")).1 = 2 ∧
    (model_iterations ("ColeCole")).1 = 2 ∧
    (∃ l, stageFreeze ("SingleShell") 1 = some l ∧
      ∀ x, x ∈ l ↔ (x = "kmed" ∨ x = "emed")) ∧
    (∃ l, stageFreeze ("DoubleShell") 1 = some l ∧
      ∀ x, x ∈ l ↔ (x = "kmed" ∨ x = "emed")) ∧
    (∃ l, stageFreeze ("DoubleShell") 2 = some l ∧
      ∀ x, x ∈ l ↔ (x = "km" ∨ x = "em")) ∧
    (∃ l, stageFreeze ("DoubleShell") 3 = some l ∧
      ∀ x, x ∈ l ↔ x = "kcp") ∧
    (∃ l, stageFreeze ("ColeCole") 1 = some l ∧
      ∀ x, x ∈ l ↔ (x = "kdc" ∨ x = "eh")) := by
  refine ⟨rfl, rfl, rfl, ⟨_, rfl, ?_⟩, ⟨_, rfl, ?_⟩, ⟨_, rfl, ?_⟩, ⟨_, rfl, ?_⟩,
    ⟨_, rfl, ?_⟩⟩ <;> intro x <;> simp

/-- C8: requesting a staged fit for a model class with no entry in the
stage-count table is non-fatal: model_iterations returns stage count 1
together with the informational log message, and fit_data proceeds as a
single-stage fit (one optimizer call on the unmodified parameter set, no
fix_parameters call, no exception). -/
theorem unknown_modelclass_single_stage (mc : String) (opt : Params → FitResult)
    (ps : Params) (h : alookup iteration_dict mc = none) :
    model_iterations mc =
      (1, some ("There exists no iterative scheme for this model.")) ∧
    fit_data (some ("Iterative")) mc opt ps = some (opt ps, ps, 0) := by
  constructor
  · simp [model_iterations, h]
  · simp [fit_data, model_iterations, h, fit_stages]

/-- Witness for C8 at the concrete unknown model class RC. -/
theorem unknown_modelclass_single_stage_witness :
    model_iterations ("RC") =
      (1, some ("There exists no iterative scheme for this model.")) ∧
    fit_data (some ("Iterative")) ("RC") sampleOpt sampleParams =
      some (sampleOpt sampleParams, sampleParams, 0) :=
  unknown_modelclass_single_stage ("RC") sampleOpt sampleParams (by decide)

/-- C9: for a model whose stage count is 1, or when no staged protocol is
requested, fit_data is a single direct optimizer invocation on the initial
parameter set: the result is spec_single_fit, the working parameter set is
returned unmodified, and fix_parameters is called zero times. -/
theorem single_stage_is_direct_fit (protocol : Option String) (mc : String)
    (opt : Params → FitResult) (ps : Params)
    (h : (model_iterations mc).1 = 1 ∨ protocol ≠ some ("Iterative")) :
    fit_data protocol mc opt ps = some (spec_single_fit opt ps, ps, 0) := by
  rcases h with h | h
  · by_cases hp : protocol = some ("Iterative")
    · simp [fit_data, hp, h, fit_stages, spec_single_fit]
    · simp [fit_data, hp, fit_stages, spec_single_fit]
  · simp [fit_data, h, fit_stages, spec_single_fit]

theorem sampleOpt_keys : ∀ qs, akeys (sampleOpt qs).best = akeys qs := by
  intro qs
  induction qs with
  | nil => rfl
  | cons hd tl ih =>
    obtain ⟨m, p⟩ := hd
    simpa [sampleOpt, akeys_cons] using ih

/-- C4: in a staged fit, every stage after the first carries every best-fit
value of the immediately preceding stage forward into the working parameter
set and then marks exactly the stage's freeze list non-varying; after the
full 4-stage DoubleShell run, the last working parameter set has exactly the
cumulative union of the stage 1 to 3 freeze lists marked non-varying (given
an initially all-varying set) and every value equal to the immediately
preceding stage's best-fit value. -/
theorem double_shell_staged_run (ps : Params) (opt : Params → FitResult)
    (hkeys : ∀ qs, akeys (opt qs).best = akeys qs)
    (hnd : (akeys ps).Nodup)
    (hmem : ∀ x ∈ (["kmed", "emed", "km", "em", "kcp"] : List String), x ∈ akeys ps)
    (hvary : ∀ n, n ∈ akeys ps → (alookup ps n).map FitParam.vary = some true) :
    ∃ p1 p2 p3,
      fix_parameters 1 ("DoubleShell") ps (opt ps) = some p1 ∧
      fix_parameters 2 ("DoubleShell") p1 (opt p1) = some p2 ∧
      fix_parameters 3 ("DoubleShell") p2 (opt p2) = some p3 ∧
      fit_data (some ("Iterative")) ("DoubleShell") opt ps = some (opt p3, p3, 3) ∧
      (∀ n, n ∈ akeys ps →
        ((alookup p3 n).map FitParam.vary = some false ↔
          n ∈ (["kmed", "emed", "km", "em", "kcp"] : List String))) ∧
      (∀ n v, (n, v) ∈ (opt p2).best →
        (alookup p3 n).map FitParam.value = some v) := by
  have hmem1 : ∀ x ∈ (["kmed", "emed"] : List String), x ∈ akeys ps := by
    intro x hx
    apply hmem
    simp only [List.mem_cons] at hx ⊢
    tauto
  have hmem2 : ∀ x ∈ (["km", "em"] : List String), x ∈ akeys ps := by
    intro x hx
    apply hmem
    simp only [List.mem_cons] at hx ⊢
    tauto
  have hmem3 : ∀ x ∈ (["kcp"] : List String), x ∈ akeys ps := by
    intro x hx
    apply hmem
    simp only [List.mem_cons] at hx ⊢
    tauto
  obtain ⟨p1, hfix1, hk1, hval1, hfr1, hnf1⟩ :=
    @fix_parameters_spec 1 ("DoubleShell") ps (opt ps) _
      rfl (hkeys ps) hnd hmem1
  obtain ⟨p2, hfix2, hk2, hval2, hfr2, hnf2⟩ :=
    @fix_parameters_spec 2 ("DoubleShell") p1 (opt p1) _
      rfl (hkeys p1) (hk1.symm ▸ hnd)
      (fun x hx => hk1.symm ▸ hmem2 x hx)
  obtain ⟨p3, hfix3, hk3, hval3, hfr3, hnf3⟩ :=
    @fix_parameters_spec 3 ("DoubleShell") p2 (opt p2) _
      rfl (hkeys p2) ((hk2.trans hk1).symm ▸ hnd)
      (fun x hx => (hk2.trans hk1).symm ▸ hmem3 x hx)
  refine ⟨p1, p2, p3, hfix1, hfix2, hfix3, ?_, ?_, hval3⟩
  · have s4 : fit_data (some ("Iterative")) ("DoubleShell") opt ps =
        fit_stages ("DoubleShell") opt 4 0 ps none := rfl
    rw [s4]
    have s3 : fit_stages ("DoubleShell") opt 4 0 ps none =
        fit_stages ("DoubleShell") opt 3 1 ps (some (opt ps)) := rfl
    rw [s3]
    have s2 : fit_stages ("DoubleShell") opt 3 1 ps (some (opt ps)) =
        (fit_stages ("DoubleShell") opt 2 2 p1 (some (opt p1))).map
          (fun t => (t.1, t.2.1, t.2.2 + 1)) := by
      simp [fit_stages, hfix1]
    rw [s2]
    have s1 : fit_stages ("DoubleShell") opt 2 2 p1 (some (opt p1)) =
        (fit_stages ("DoubleShell") opt 1 3 p2 (some (opt p2))).map
          (fun t => (t.1, t.2.1, t.2.2 + 1)) := by
      simp [fit_stages, hfix2]
    rw [s1]
    have s0 : fit_stages ("DoubleShell") opt 1 3 p2 (some (opt p2)) =
        (fit_stages ("DoubleShell") opt 0 4 p3 (some (opt p3))).map
          (fun t => (t.1, t.2.1, t.2.2 + 1)) := by
      simp [fit_stages, hfix3]
    rw [s0]
    rfl
  · intro n hn
    constructor
    · intro hfalse
      by_contra hU
      have h3 : n ∉ (["kcp"] : List String) := by
        intro hx
        apply hU
        simp only [List.mem_cons] at hx ⊢
        tauto
      have h2 : n ∉ (["km", "em"] : List String) := by
        intro hx
        apply hU
        simp only [List.mem_cons] at hx ⊢
        tauto
      have h1 : n ∉ (["kmed", "emed"] : List String) := by
        intro hx
        apply hU
        simp only [List.mem_cons] at hx ⊢
        tauto
      have ht : (alookup p3 n).map FitParam.vary = some true := by
        rw [hnf3 n h3, hnf2 n h2, hnf1 n h1]
        exact hvary n hn
      rw [ht] at hfalse
      simp at hfalse
    · intro hU
      by_cases h3 : n ∈ (["kcp"] : List String)
      · exact hfr3 n h3
      · rw [hnf3 n h3]
        by_cases h2 : n ∈ (["km", "em"] : List String)
        · exact hfr2 n h2
        · rw [hnf2 n h2]
          have h1 : n ∈ (["kmed", "emed"] : List String) := by
            simp only [List.mem_cons] at hU h2 h3 ⊢
            tauto
          exact hfr1 n h1

/-- Witness for C4 at a concrete five-parameter set and optimizer. -/
theorem double_shell_staged_run_witness :
    ∃ p1 p2 p3,
      fix_parameters 1 ("DoubleShell") sampleParams (sampleOpt sampleParams) = some p1 ∧
      fix_parameters 2 ("DoubleShell") p1 (sampleOpt p1) = some p2 ∧
      fix_parameters 3 ("DoubleShell") p2 (sampleOpt p2) = some p3 ∧
      fit_data (some ("Iterative")) ("DoubleShell") sampleOpt sampleParams =
        some (sampleOpt p3, p3, 3) ∧
      (∀ n, n ∈ akeys sampleParams →
        ((alookup p3 n).map FitParam.vary = some false ↔
          n ∈ (["kmed", "emed", "km", "em", "kcp"] : List String))) ∧
      (∀ n v, (n, v) ∈ (sampleOpt p2).best →
        (alookup p3 n).map FitParam.value = some v) :=
  double_shell_staged_run sampleParams sampleOpt sampleOpt_keys
    (by decide) (by decide) (by decide)

/-- Witness for C9: no protocol requested, concrete optimizer and set. -/
theorem single_stage_is_direct_fit_witness :
    fit_data none ("DoubleShell") sampleOpt sampleParams =
      some (spec_single_fit sampleOpt sampleParams, sampleParams, 0) :=
  single_stage_is_direct_fit none ("DoubleShell") sampleOpt sampleParams
    (Or.inr (by simp))

section ClusterLemmas

theorem firstJump_none_spec {c : ℚ} {l : List (ℚ × ℚ)} (h : firstJump c l = none) :
    ∀ i da, l.get? i = some da → ¬ c * da.2 < da.1 := by
  induction l with
  | nil => intro i da hda; simp at hda
  | cons hd tl ih =>
    obtain ⟨d, a⟩ := hd
    by_cases hc : c * a < d
    · simp [firstJump, hc] at h
    · simp [firstJump, hc] at h
      intro i da hda
      cases i with
      | zero =>
        simp at hda
        subst hda
        exact hc
      | succ i =>
        rw [List.get?_cons_succ] at hda
        exact ih h i da hda

theorem firstJump_none_of {c : ℚ} {l : List (ℚ × ℚ)}
    (h : ∀ i da, l.get? i = some da → ¬ c * da.2 < da.1) :
    firstJump c l = none := by
  induction l with
  | nil => rfl
  | cons hd tl ih =>
    obtain ⟨d, a⟩ := hd
    have hc : ¬ c * a < d := h 0 (d, a) rfl
    have htl : ∀ i da, tl.get? i = some da → ¬ c * da.2 < da.1 := by
      intro i da hda
      exact h (i + 1) da (by rw [List.get?_cons_succ]; exact hda)
    simp [firstJump, hc, ih htl]

theorem firstJump_some_spec {c : ℚ} {l : List (ℚ × ℚ)} {i : ℕ}
    (h : firstJump c l = some i) :
    (∃ da, l.get? i = some da ∧ c * da.2 < da.1) ∧
    ∀ j, j < i → ∀ da, l.get? j = some da → ¬ c * da.2 < da.1 := by
  induction l generalizing i with
  | nil => simp [firstJump] at h
  | cons hd tl ih =>
    obtain ⟨d, a⟩ := hd
    by_cases hc : c * a < d
    · simp [firstJump, hc] at h
      subst h
      exact ⟨⟨(d, a), rfl, hc⟩, fun j hj => absurd hj (Nat.not_lt_zero j)⟩
    · simp [firstJump, hc, Option.map_eq_some'] at h
      obtain ⟨k, hk, hik⟩ := h
      obtain ⟨⟨da, hda, hlt⟩, hmin⟩ := ih hk
      subst hik
      refine ⟨⟨da, by rw [List.get?_cons_succ]; exact hda, hlt⟩, ?_⟩
      intro j hj da' hda'
      cases j with
      | zero =>
        simp at hda'
        subst hda'
        exact hc
      | succ j =>
        rw [List.get?_cons_succ] at hda'
        exact hmin j (Nat.lt_of_succ_lt_succ hj) da' hda'

theorem mem_insertAsc {x y : ℚ} {l : List ℚ} :
    y ∈ insertAsc x l ↔ y = x ∨ y ∈ l := by
  induction l with
  | nil => simp [insertAsc]
  | cons z t ih =>
    by_cases hxz : x ≤ z
    · simp [insertAsc, hxz]
    · simp [insertAsc, hxz, ih]
      tauto

theorem mem_sortAsc {y : ℚ} {xs : List ℚ} : y ∈ sortAsc xs ↔ y ∈ xs := by
  induction xs with
  | nil => simp [sortAsc]
  | cons x t ih =>
    have : sortAsc (x :: t) = insertAsc x (sortAsc t) := rfl
    rw [this, mem_insertAsc]
    simp [ih]

theorem diffsQ_zero {a : ℚ} :
    ∀ {s : List ℚ}, (∀ x ∈ s, x = a) → ∀ d ∈ diffsQ s, d = 0
  | [], _, d, hd => by simp [diffsQ] at hd
  | [_], _, d, hd => by simp [diffsQ] at hd
  | x :: y :: rest, h, d, hd => by
    rw [show diffsQ (x :: y :: rest) = (y - x) :: diffsQ (y :: rest) from rfl] at hd
    rcases List.mem_cons.mp hd with hd | hd
    · have hx : x = a := h x (by simp)
      have hy : y = a := h y (by simp)
      rw [hd, hx, hy, sub_self]
    · exact diffsQ_zero (fun z hz => h z (List.mem_cons_of_mem x hz)) d hd

theorem avgsAux_zero {l0 : ℚ} :
    ∀ {rest : List ℚ} {j : ℕ}, (∀ x ∈ rest, x = l0) →
      ∀ v ∈ avgsAux l0 j rest, v = 0 := by
  intro rest
  induction rest with
  | nil => intro j _ v hv; simp [avgsAux] at hv
  | cons x t ih =>
    intro j h v hv
    rw [show avgsAux l0 j (x :: t) =
      ((x - l0) / ((j : ℚ) + 1)) :: avgsAux l0 (j + 1) t from rfl] at hv
    rcases List.mem_cons.mp hv with hv | hv
    · have hx : x = l0 := h x (by simp)
      rw [hv, hx, sub_self, zero_div]
    · exact ih (fun z hz => h z (List.mem_cons_of_mem x hz)) v hv

theorem avgsQ_zero {a : ℚ} {s : List ℚ} (h : ∀ x ∈ s, x = a) :
    ∀ v ∈ avgsQ s, v = 0 := by
  cases s with
  | nil => intro v hv; simp [avgsQ] at hv
  | cons l0 rest =>
    intro v hv
    have hl0 : l0 = a := h l0 (by simp)
    have hrest : ∀ x ∈ rest, x = l0 := by
      intro x hx
      rw [hl0]
      exact h x (List.mem_cons_of_mem l0 hx)
    exact avgsAux_zero hrest v hv

end ClusterLemmas

/-- C5: the cutoff of the walker-clustering scan is the first index whose
difference exceeds the in-scope constant times the average difference; when
no index qualifies the cutoff is the walker count, so everything is kept; in
particular a single walker, or all walker scores identical, keeps everything
and raises nothing. -/
theorem cluster_cut_spec (c : ℚ) (wp : List ℚ) :
    (cluster_cut c wp < wp.length →
      (∃ da, (walkerTable wp).get? (cluster_cut c wp) = some da ∧
        c * da.2 < da.1) ∧
      (∀ j, j < cluster_cut c wp → ∀ da, (walkerTable wp).get? j = some da →
        ¬ c * da.2 < da.1)) ∧
    ((∀ i da, (walkerTable wp).get? i = some da → ¬ c * da.2 < da.1) →
      cluster_cut c wp = wp.length) ∧
    (wp.length = 1 → cluster_cut c wp = 1) ∧
    (∀ a, (∀ x, x ∈ wp → x = a) → cluster_emcee_cut c wp = wp.length) := by
  refine ⟨?_, ?_, ?_, ?_⟩
  · intro hlt
    cases hfj : firstJump c (walkerTable wp) with
    | none =>
      rw [show cluster_cut c wp = wp.length by simp [cluster_cut, hfj]] at hlt
      exact absurd hlt (lt_irrefl _)
    | some i =>
      have hcut : cluster_cut c wp = i := by simp [cluster_cut, hfj]
      rw [hcut]
      exact firstJump_some_spec hfj
  · intro h
    simp [cluster_cut, firstJump_none_of h]
  · intro h
    obtain ⟨x, hx⟩ := List.length_eq_one.mp h
    subst hx
    rfl
  · intro a h
    have hz : ∀ i da, (walkerTable wp).get? i = some da → ¬ 100 * da.2 < da.1 := by
      intro i da hda
      have hmem : da ∈ walkerTable wp := List.get?_mem hda
      obtain ⟨h1, h2⟩ := List.of_mem_zip hmem
      have hs : ∀ x ∈ sortAsc wp, x = a := fun x hx => h x (mem_sortAsc.mp hx)
      have hd0 : da.1 = 0 := diffsQ_zero hs da.1 h1
      have ha0 : da.2 = 0 := avgsQ_zero hs da.2 h2
      rw [hd0, ha0, mul_zero]
      exact lt_irrefl 0
    simp [cluster_emcee_cut, cluster_cut, firstJump_none_of hz]

/-- Witness for C5: a single walker keeps everything, and three identical
walker scores keep everything. -/
theorem cluster_cut_spec_witness :
    cluster_cut 100 [5] = 1 ∧ cluster_emcee_cut 7 [2, 2, 2] = 3 := by
  constructor
  · exact (cluster_cut_spec 100 [5]).2.2.1 rfl
  · have h := (cluster_cut_spec 7 [2, 2, 2]).2.2.2 2 (by
      intro x hx
      rcases List.mem_cons.mp hx with h1 | hx
      · exact h1
      rcases List.mem_cons.mp hx with h1 | hx
      · exact h1
      rcases List.mem_cons.mp hx with h1 | hx
      · exact h1
      · simp at hx)
    simpa using h

/-- C2 (code bug): the walker-clustering threshold is not an honoured
parameter: main.py line 561 reassigns the constant argument to 1e2
unconditionally before the cutoff scan, so passing constant 1 on the scores
0, 1, 3 still keeps all 3 walkers, whereas the scan with constant 1 itself
cuts at index 1. -/
theorem cluster_constant_ignored :
    cluster_emcee_cut 1 [0, 1, 3] = 3 ∧ cluster_cut 1 [0, 1, 3] = 1 := by
  constructor
  · norm_num [cluster_emcee_cut, cluster_cut, walkerTable, sortAsc, insertAsc,
      diffsQ, avgsQ, avgsAux, firstJump]
  · norm_num [cluster_cut, walkerTable, sortAsc, insertAsc,
      diffsQ, avgsQ, avgsAux, firstJump]

/-- C1 (code bug): the fourth, middle entry of the percentiles literal of
emcee_conf_interval is the literal 0.0 rather than 0.5: on the flattened
chain 1, 2, 3 the middle returned pair is the level 0.0 paired with the
chain minimum 1, while the median, the value at percentile 50, is 2. -/
theorem emcee_middle_level_is_zero :
    percentile_levels.get? 3 = some 0 ∧
    (emcee_conf_interval_entries [1, 2, 3]).get? 3 = some (0, some 1) ∧
    npPercentile [1, 2, 3] 50 = some 2 ∧
    (0 : ℚ) ≠ 0.5 := by
  refine ⟨?_, ?_, ?_, by norm_num⟩
  · norm_num [percentile_levels]
  · norm_num [emcee_conf_interval_entries, percentile_levels, npPercentile,
      sortAsc, insertAsc]
  · norm_num [npPercentile, sortAsc, insertAsc]

/-- C6 (code bug): with write_output enabled and at least one processed
record, the end-of-run write of Fitter.run reopens the output file with the
invalid mode W, so a ValueError is raised and the aggregated data is never
dumped; with zero processed records the informational message is logged and
no error is raised. -/
theorem run_output_invalid_write_mode :
    pyOpenModeValid ("W") = false ∧
    (run_output true true).error = some ("ValueError: invalid mode: W") ∧
    (run_output true true).events = [OutEvent.openedOutfile ("w")] ∧
    (run_output true false).error = none ∧
    (run_output true false).events =
      [OutEvent.openedOutfile ("w"), OutEvent.loggedNothingToProcess] ∧
    (run_output false false).error = none ∧
    (run_output false false).events = [OutEvent.loggedNothingToProcess] := by
  refine ⟨by decide, by decide, by decide, by decide, by decide, by decide,
    by decide⟩

section HandoffLemmas

theorem handoffStep_keys {best1 : List (String × ℚ)} {ps ps' : Params}
    {c : String} (h : handoffStep best1 ps c = some ps') :
    akeys ps' = akeys ps := by
  cases hb : alookup best1 c with
  | none => simp [handoffStep, hb] at h
  | some v =>
    cases hsv : setValue ps c v with
    | none => simp [handoffStep, hb, hsv] at h
    | some ps1 =>
      simp [handoffStep, hb, hsv] at h
      rw [setVaryFalse_keys h, setValue_keys hsv]

theorem handoffStep_some {best1 : List (String × ℚ)} {ps : Params} {c : String}
    (hb : c ∈ akeys best1) (hp : c ∈ akeys ps) :
    ∃ ps', handoffStep best1 ps c = some ps' := by
  obtain ⟨v, hv⟩ := Option.isSome_iff_exists.mp (alookup_isSome_iff.mpr hb)
  obtain ⟨ps1, h1⟩ := setValue_some_of_mem v hp
  have hp1 : c ∈ akeys ps1 := by rw [setValue_keys h1]; exact hp
  obtain ⟨ps2, h2⟩ := setVaryFalse_some_of_mem hp1
  exact ⟨ps2, by simp [handoffStep, hv, h1, h2]⟩

theorem handoffStep_none_of_not_mem {best1 : List (String × ℚ)} {ps : Params}
    {c : String} (hb : c ∈ akeys best1) (hp : c ∉ akeys ps) :
    handoffStep best1 ps c = none := by
  obtain ⟨v, hv⟩ := Option.isSome_iff_exists.mp (alookup_isSome_iff.mpr hb)
  simp [handoffStep, hv, setValue_none_of_not_mem v hp]

theorem handoffStep_lookup_other {best1 : List (String × ℚ)} {ps ps' : Params}
    {c m : String} (h : handoffStep best1 ps c = some ps') (hne : m ≠ c) :
    alookup ps' m = alookup ps m := by
  cases hb : alookup best1 c with
  | none => simp [handoffStep, hb] at h
  | some v =>
    cases hsv : setValue ps c v with
    | none => simp [handoffStep, hb, hsv] at h
    | some ps1 =>
      simp [handoffStep, hb, hsv] at h
      rw [alookup_setVaryFalse_other h hne, alookup_setValue_other hsv hne]

theorem handoffStep_lookup_self {best1 : List (String × ℚ)} {ps ps' : Params}
    {c : String} (h : handoffStep best1 ps c = some ps') :
    ∃ v, alookup best1 c = some v ∧ alookup ps' c = some (FitParam.mk v false) := by
  cases hb : alookup best1 c with
  | none => simp [handoffStep, hb] at h
  | some v =>
    cases hsv : setValue ps c v with
    | none => simp [handoffStep, hb, hsv] at h
    | some ps1 =>
      simp [handoffStep, hb, hsv] at h
      refine ⟨v, rfl, ?_⟩
      have hc : c ∈ akeys ps := by
        by_contra hc
        rw [setValue_none_of_not_mem v hc] at hsv
        cases hsv
      obtain ⟨p0, hp0⟩ := Option.isSome_iff_exists.mp (alookup_isSome_iff.mpr hc)
      have h1 : alookup ps1 c = some (FitParam.mk v p0.vary) := by
        rw [alookup_setValue_self hsv, hp0]
        rfl
      rw [alookup_setVaryFalse_self h, h1]
      rfl

theorem handoff_ok_of_subset {best1 : List (String × ℚ)} {cs : List String}
    {ps : Params} (h : ∀ x ∈ cs, x ∈ akeys best1 ∧ x ∈ akeys ps) :
    ∃ ps1, handoff best1 cs ps = (ps1, none) ∧ akeys ps1 = akeys ps := by
  induction cs generalizing ps with
  | nil => exact ⟨ps, rfl, rfl⟩
  | cons c tl ih =>
    obtain ⟨hb, hp⟩ := h c (List.mem_cons_self c tl)
    obtain ⟨ps1, h1⟩ := handoffStep_some hb hp
    have hk1 : akeys ps1 = akeys ps := handoffStep_keys h1
    have htl : ∀ x ∈ tl, x ∈ akeys best1 ∧ x ∈ akeys ps1 := by
      intro x hx
      obtain ⟨hxb, hxp⟩ := h x (List.mem_cons_of_mem c hx)
      exact ⟨hxb, hk1.symm ▸ hxp⟩
    obtain ⟨ps2, h2, hk2⟩ := ih htl
    exact ⟨ps2, by simp [handoff, h1, h2], hk2.trans hk1⟩

theorem handoff_error_of_missing {best1 : List (String × ℚ)} {cs : List String}
    {ps : Params} (hb : ∀ x ∈ cs, x ∈ akeys best1)
    (hmiss : ∃ x ∈ cs, x ∉ akeys ps) :
    (handoff best1 cs ps).2.isSome := by
  induction cs generalizing ps with
  | nil =>
    obtain ⟨x, hx, _⟩ := hmiss
    cases hx
  | cons c tl ih =>
    by_cases hc : c ∈ akeys ps
    · obtain ⟨ps1, h1⟩ := handoffStep_some (hb c (List.mem_cons_self c tl)) hc
      have hk1 : akeys ps1 = akeys ps := handoffStep_keys h1
      have hbtl : ∀ x ∈ tl, x ∈ akeys best1 :=
        fun x hx => hb x (List.mem_cons_of_mem c hx)
      have hmisstl : ∃ x ∈ tl, x ∉ akeys ps1 := by
        obtain ⟨x, hx, hxk⟩ := hmiss
        rcases List.mem_cons.mp hx with hxc | hxtl
        · exact absurd (hxc ▸ hc) hxk
        · exact ⟨x, hxtl, fun hx1 => hxk (hk1 ▸ hx1)⟩
      have := ih hbtl hmisstl
      simpa [handoff, h1] using this
    · rw [show handoff best1 (c :: tl) ps = (ps, some c) by
        simp [handoff, handoffStep_none_of_not_mem (hb c (List.mem_cons_self c tl)) hc]]
      rfl

theorem handoff_append_ok {best1 : List (String × ℚ)} {l1 l2 : List String}
    {ps ps1 : Params} (h : handoff best1 l1 ps = (ps1, none)) :
    handoff best1 (l1 ++ l2) ps = handoff best1 l2 ps1 := by
  induction l1 generalizing ps with
  | nil =>
    have h1 : ps = ps1 := (Prod.ext_iff.mp h).1
    rw [← h1]
    rfl
  | cons c tl ih =>
    cases h1 : handoffStep best1 ps c with
    | none =>
      rw [show handoff best1 (c :: tl) ps = (ps, some c) by simp [handoff, h1]] at h
      cases congrArg Prod.snd h
    | some psm =>
      have hrest : handoff best1 tl psm = (ps1, none) := by
        rw [show handoff best1 (c :: tl) ps = handoff best1 tl psm by
          simp [handoff, h1]] at h
        exact h
      rw [show handoff best1 ((c :: tl) ++ l2) ps = handoff best1 (tl ++ l2) psm by
        simp [handoff, h1]]
      exact ih hrest

theorem handoff_lookup_notmem {best1 : List (String × ℚ)} {cs : List String}
    {ps ps1 : Params} {m : String} (h : handoff best1 cs ps = (ps1, none))
    (hm : m ∉ cs) : alookup ps1 m = alookup ps m := by
  induction cs generalizing ps with
  | nil =>
    have h1 : ps = ps1 := (Prod.ext_iff.mp h).1
    rw [← h1]
  | cons c tl ih =>
    have hmc : m ≠ c := fun he => hm (he ▸ List.mem_cons_self c tl)
    have hmtl : m ∉ tl := fun he => hm (List.mem_cons_of_mem c he)
    cases h1 : handoffStep best1 ps c with
    | none =>
      rw [show handoff best1 (c :: tl) ps = (ps, some c) by simp [handoff, h1]] at h
      cases congrArg Prod.snd h
    | some psm =>
      have hrest : handoff best1 tl psm = (ps1, none) := by
        rw [show handoff best1 (c :: tl) ps = handoff best1 tl psm by
          simp [handoff, h1]] at h
        exact h
      rw [ih hrest hmtl, handoffStep_lookup_other h1 hmc]

theorem handoff_values {best1 : List (String × ℚ)} {cs : List String}
    {ps ps1 : Params} (hnd : cs.Nodup) (h : handoff best1 cs ps = (ps1, none)) :
    ∀ n ∈ cs, ∃ v, alookup best1 n = some v ∧
      alookup ps1 n = some (FitParam.mk v false) := by
  induction cs generalizing ps with
  | nil => intro n hn; cases hn
  | cons c tl ih =>
    intro n hn
    cases h1 : handoffStep best1 ps c with
    | none =>
      rw [show handoff best1 (c :: tl) ps = (ps, some c) by simp [handoff, h1]] at h
      cases congrArg Prod.snd h
    | some psm =>
      have hrest : handoff best1 tl psm = (ps1, none) := by
        rw [show handoff best1 (c :: tl) ps = handoff best1 tl psm by
          simp [handoff, h1]] at h
        exact h
      rcases List.mem_cons.mp hn with hnc | hntl
      · subst hnc
        have hnot : n ∉ tl := (List.nodup_cons.mp hnd).1
        obtain ⟨v, hv, hl⟩ := handoffStep_lookup_self h1
        exact ⟨v, hv, (handoff_lookup_notmem hrest hnot) ▸ hl⟩
      · exact ih (List.nodup_cons.mp hnd).2 hrest n hntl

end HandoffLemmas

/-- C7: in a sequential run, a hand-off name missing from the second model's
parameter set is fatal for the record: the KeyError is re-raised carrying the
invalid name, the second-model fit is not attempted, the record's output is
never added to the aggregated data, and the record loop aborts so nothing
further is persisted. -/
theorem sequential_handoff_missing_key (opt1 opt2 : Params → FitResult)
    (communicate : List String) (params1 : Params) (key : String) (st : SeqState)
    (hb : ∀ n ∈ communicate, n ∈ akeys (opt1 params1).best)
    (hmiss : ∃ n ∈ communicate, n ∉ akeys st.params2) :
    (sequential_record opt1 opt2 communicate params1 key st).2.2.isSome ∧
    (sequential_record opt1 opt2 communicate params1 key st).2.1 = false ∧
    (sequential_record opt1 opt2 communicate params1 key st).1.data = st.data ∧
    (∀ rest, (sequential_records opt1 opt2 communicate params1 (key :: rest) st).2.isSome ∧
      (sequential_records opt1 opt2 communicate params1 (key :: rest) st).1.data =
        st.data) := by
  have herr := handoff_error_of_missing hb hmiss
  cases hh : handoff (opt1 params1).best communicate st.params2 with
  | mk ps2 err =>
    cases err with
    | none => rw [hh] at herr; simp at herr
    | some c =>
      refine ⟨?_, ?_, ?_, ?_⟩
      · simp [sequential_record, hh]
      · simp [sequential_record, hh]
      · simp [sequential_record, hh]
      · intro rest
        constructor
        · simp [sequential_records, sequential_record, hh]
        · simp [sequential_records, sequential_record, hh]

/-- Witness for C7: hand-off of em, which the first model fitted but the
second model's two-entry parameter set does not contain. -/
theorem sequential_handoff_missing_key_witness :
    (sequential_record sampleOpt sampleOpt ["kmed", "em"] sampleParams ("f0")
      (SeqState.mk [("kmed", FitParam.mk 7 true)] [])).2.2.isSome ∧
    (sequential_record sampleOpt sampleOpt ["kmed", "em"] sampleParams ("f0")
      (SeqState.mk [("kmed", FitParam.mk 7 true)] [])).2.1 = false ∧
    (sequential_record sampleOpt sampleOpt ["kmed", "em"] sampleParams ("f0")
      (SeqState.mk [("kmed", FitParam.mk 7 true)] [])).1.data = [] ∧
    (∀ rest, (sequential_records sampleOpt sampleOpt ["kmed", "em"] sampleParams
        (("f0") :: rest) (SeqState.mk [("kmed", FitParam.mk 7 true)] [])).2.isSome ∧
      (sequential_records sampleOpt sampleOpt ["kmed", "em"] sampleParams
        (("f0") :: rest) (SeqState.mk [("kmed", FitParam.mk 7 true)] [])).1.data = []) :=
  sequential_handoff_missing_key sampleOpt sampleOpt ["kmed", "em"] sampleParams
    ("f0") (SeqState.mk [("kmed", FitParam.mk 7 true)] []) (by decide) (by decide)

/-- C10: the hand-off is not atomic and mutates persistent state: with
communicate equal to pre, then a missing name, then a remainder, the KeyError
at the missing name leaves every name of pre already overwritten to the first
model's best value with vary false inside the long-lived second-model
parameter set, and the aborted run's final persistent state keeps exactly
those partial mutations. -/
theorem sequential_handoff_partial_mutation (opt1 opt2 : Params → FitResult)
    (pre rest others : List String) (bad key : String) (params1 : Params)
    (st : SeqState)
    (hnd : pre.Nodup)
    (hpre : ∀ n ∈ pre, n ∈ akeys (opt1 params1).best ∧ n ∈ akeys st.params2)
    (hbadb : bad ∈ akeys (opt1 params1).best)
    (hbad : bad ∉ akeys st.params2) :
    ∃ ps1, handoff (opt1 params1).best pre st.params2 = (ps1, none) ∧
      handoff (opt1 params1).best (pre ++ bad :: rest) st.params2 =
        (ps1, some bad) ∧
      (∀ n ∈ pre, ∃ v, alookup (opt1 params1).best n = some v ∧
        alookup ps1 n = some (FitParam.mk v false)) ∧
      sequential_records opt1 opt2 (pre ++ bad :: rest) params1 (key :: others) st =
        (SeqState.mk ps1 st.data, some bad) := by
  obtain ⟨ps1, hok, hkeys1⟩ := handoff_ok_of_subset hpre
  have hbad1 : bad ∉ akeys ps1 := fun hx => hbad (hkeys1 ▸ hx)
  have hstep : handoffStep (opt1 params1).best ps1 bad = none :=
    handoffStep_none_of_not_mem hbadb hbad1
  have hbadrun : handoff (opt1 params1).best (bad :: rest) ps1 = (ps1, some bad) := by
    simp [handoff, hstep]
  have happ : handoff (opt1 params1).best (pre ++ bad :: rest) st.params2 =
      (ps1, some bad) := by
    rw [handoff_append_ok hok, hbadrun]
  refine ⟨ps1, hok, happ, handoff_values hnd hok, ?_⟩
  simp [sequential_records, sequential_record, happ]

/-- Witness for C10: hand-off of kmed then the missing em then kcp into a
two-entry second-model set. -/
theorem sequential_handoff_partial_mutation_witness :
    ∃ ps1, handoff (sampleOpt sampleParams).best ["kmed"]
        [("kmed", FitParam.mk 7 true)] = (ps1, none) ∧
      handoff (sampleOpt sampleParams).best (["kmed"] ++ ("em") :: ["kcp"])
        [("kmed", FitParam.mk 7 true)] = (ps1, some ("em")) ∧
      (∀ n ∈ (["kmed"] : List String), ∃ v,
        alookup (sampleOpt sampleParams).best n = some v ∧
        alookup ps1 n = some (FitParam.mk v false)) ∧
      sequential_records sampleOpt sampleOpt (["kmed"] ++ ("em") :: ["kcp"])
        sampleParams (("f0") :: []) (SeqState.mk [("kmed", FitParam.mk 7 true)] []) =
        (SeqState.mk ps1 [], some ("em")) :=
  sequential_handoff_partial_mutation sampleOpt sampleOpt ["kmed"] ["kcp"] []
    ("em") ("f0") sampleParams (SeqState.mk [("kmed", FitParam.mk 7 true)] [])
    (by decide) (by decide) (by decide) (by decide)

end ImpedanceFitter
